import Mathlib

/-!
Verification of the Movesense ECG/IMU toolkit core: the SBEM chunk codec and
payload decoders (`conversion/converter.py` in its two variants), the BLE log
transfer session (`extraction/extractor.py`, `fetch_logbook_data.py`) and the
multi-device extraction scheduler (`gui/main_window.py`).

Bytes are modelled as natural numbers (< 256 in well-formed streams); byte
streams are `List Nat`.  IEEE-754 f32 fields are represented bit-exactly by
the little-endian 32-bit pattern of their four source bytes (the decoders
only move bytes into fields; no float arithmetic occurs).
-/

/-- Little-endian value of a byte list: first byte is least significant. -/
def leVal : List Nat → Nat
  | [] => 0
  | b :: t => b + 256 * leVal t

/-- Little-endian u32 read at `off`, as in `struct.unpack("<I", data[off:off+4])`. -/
def u32at (data : List Nat) (off : Nat) : Nat := leVal ((data.drop off).take 4)

/-- Little-endian f32 bit pattern read at `off` (`struct.unpack("<f", ...)`),
represented by the u32 with the same bytes. -/
def f32at (data : List Nat) (off : Nat) : Nat := leVal ((data.drop off).take 4)

/-- Little-endian u16 read at `off` (`struct.unpack("<H", data[off:off+2])`). -/
def u16at (data : List Nat) (off : Nat) : Nat := leVal ((data.drop off).take 2)

/-- Embeds `readId` from `conversion/converter.py` (both variants are
byte-for-byte identical): read one byte; if it is below the escape value 255
it is the id, otherwise two further bytes form a little-endian 16-bit id.
`none` models the EOF `return None` paths. -/
def readId : List Nat → Option (Nat × List Nat)
  | [] => none
  | b :: rest =>
    if 255 ≤ b then
      match rest with
      | b0 :: b1 :: r => some (b0 + 256 * b1, r)
      | _ => none
    else some (b, rest)

/-- Embeds `readLen` from `conversion/converter.py`: one byte below 255 is the
length, otherwise four further bytes form a little-endian 32-bit length. -/
def readLen : List Nat → Option (Nat × List Nat)
  | [] => none
  | b :: rest =>
    if b < 255 then some (b, rest)
    else
      match rest with
      | b0 :: b1 :: b2 :: b3 :: r => some (b0 + 256 * (b1 + 256 * (b2 + 256 * b3)), r)
      | _ => none

/-- One 3-axis sample; each component is an f32 bit pattern. -/
structure Vec3 where
  x : Nat
  y : Nat
  z : Nat
deriving DecidableEq, Repr

/-- A decoded data-chunk row as appended to the `data_chunks` list by the
converter parse functions. -/
inductive Record where
  | imu (chunkIndex timestamp : Nat) (accel gyro : List Vec3)
  | ecg (chunkIndex timestamp : Nat) (samples : List Nat)
  | hr (chunkIndex average rr : Nat)
  | fallback (chunkIndex chunkId value : Nat)
deriving DecidableEq, Repr

/-- Embeds `parse_IMU6_new` (MovesenseTool) / `parse_MEASIMU6_new`
(pc-extractor-parser), which are identical: a 52-byte packet is a u32
timestamp, 2 accelerometer samples of 3 f32 each, then 2 gyroscope samples of
3 f32 each; shorter input appends nothing. -/
def parseIMU6 (data : List Nat) (idx : Nat) (acc : List Record) : List Record :=
  if data.length < 52 then acc
  else
    acc ++ [Record.imu idx (u32at data 0)
      [⟨f32at data 4, f32at data 8, f32at data 12⟩,
       ⟨f32at data 16, f32at data 20, f32at data 24⟩]
      [⟨f32at data 28, f32at data 32, f32at data 36⟩,
       ⟨f32at data 40, f32at data 44, f32at data 48⟩]]

/-- Embeds `parse_ECG_mV` / `parse_ECGmV_chunk` (identical in both variants):
a 68-byte packet is a u32 timestamp then 16 f32 samples; any other length
appends nothing. -/
def parseECG (data : List Nat) (idx : Nat) (acc : List Record) : List Record :=
  if data.length = 68 then
    acc ++ [Record.ecg idx (u32at data 0) ((List.range 16).map (fun i => f32at data (4 + 4 * i)))]
  else acc

/-- Embeds `parse_HR_chunk_new` (MovesenseTool only): a 6-byte packet is an
f32 average then a u16 RR interval; any other length appends nothing. -/
def parseHR (data : List Nat) (idx : Nat) (acc : List Record) : List Record :=
  if data.length = 6 then acc ++ [Record.hr idx (f32at data 0) (u16at data 4)]
  else acc

namespace MT

/-- Embeds `parseDataChunk` of `MovesenseTool/conversion/converter.py`
(lines 213-237): dispatch on the payload length 52 / 68 / 6, with a 4-byte
u32 fallback for any other length of at least 4 and no record below 4.
The `unique_chunk_ids`-style statistics and prints are omitted. -/
def parseDataChunk (chunkId : Nat) (data : List Nat) (idx : Nat) (acc : List Record) :
    List Record :=
  if data.length = 52 then parseIMU6 data idx acc
  else if data.length = 68 then parseECG data idx acc
  else if data.length = 6 then parseHR data idx acc
  else if data.length < 4 then acc
  else acc ++ [Record.fallback idx chunkId (u32at data 0)]

end MT

namespace PC

/-- Embeds `parseDataChunk` of `pc-extractor-parser/conversion/converter.py`
(lines 167-189): as the MovesenseTool variant but with no heart-rate branch,
so a 6-byte payload falls through to the fallback parse. -/
def parseDataChunk (chunkId : Nat) (data : List Nat) (idx : Nat) (acc : List Record) :
    List Record :=
  if data.length = 52 then parseIMU6 data idx acc
  else if data.length = 68 then parseECG data idx acc
  else if data.length < 4 then acc
  else acc ++ [Record.fallback idx chunkId (u32at data 0)]

end PC

/-- The U+FFFD replacement character substituted for undecodable bytes. -/
def replacementChar : Char := Char.ofNat 0xFFFD

/-- Number of bytes of the UTF-8 sequence announced by a lead byte
(0 for bytes that can never start a valid sequence). -/
def utf8SeqLen (b : Nat) : Nat :=
  if b < 0x80 then 1
  else if b < 0xC2 then 0
  else if b < 0xE0 then 2
  else if b < 0xF0 then 3
  else if b < 0xF5 then 4
  else 0

/-- Whether byte `b` is acceptable as continuation byte number `pos` (0-based)
after lead byte `lead`; the first continuation byte carries the usual
restricted ranges that exclude overlong forms, surrogates and values above
U+10FFFF. -/
def utf8ContOk (lead pos b : Nat) : Bool :=
  if pos = 0 then
    (if lead = 0xE0 then 0xA0 else if lead = 0xF0 then 0x90 else 0x80) ≤ b ∧
    b < (if lead = 0xED then 0xA0 else if lead = 0xF4 then 0x90 else 0xC0)
  else 0x80 ≤ b ∧ b < 0xC0

/-- Consumes up to `k` continuation bytes for lead `lead`, accumulating the
code point; stops (returning `none` and the unconsumed bytes) at the first
byte that is not a valid continuation, so that the caller substitutes one
replacement character for the maximal subpart, as the Python handler
`errors="replace"` does. -/
def utf8TakeConts (lead : Nat) : Nat → Nat → Nat → List Nat → Option Nat × List Nat
  | 0, acc, _, rest => (some acc, rest)
  | _ + 1, _, _, [] => (none, [])
  | k + 1, acc, pos, b :: rest =>
    if utf8ContOk lead pos b then utf8TakeConts lead k (acc * 64 + (b - 0x80)) (pos + 1) rest
    else (none, b :: rest)

/-- Initial code-point accumulator for a multi-byte lead byte. -/
def utf8LeadVal (b n : Nat) : Nat :=
  if n = 2 then b - 0xC0 else if n = 3 then b - 0xE0 else b - 0xF0

/-- Fuelled worker for `utf8DecodeReplace`; each step consumes at least one
byte, so fuel equal to the stream length suffices. -/
def utf8DecodeAux : Nat → List Nat → List Char
  | 0, _ => []
  | _ + 1, [] => []
  | fuel + 1, b :: rest =>
    if b < 0x80 then Char.ofNat b :: utf8DecodeAux fuel rest
    else
      let n := utf8SeqLen b
      if n < 2 then replacementChar :: utf8DecodeAux fuel rest
      else
        match utf8TakeConts b (n - 1) (utf8LeadVal b n) 0 rest with
        | (some cp, r) => Char.ofNat cp :: utf8DecodeAux fuel r
        | (none, r) => replacementChar :: utf8DecodeAux fuel r

/-- Models `bytes.decode("utf-8", errors="replace")`: total UTF-8 decoding
that substitutes U+FFFD for each maximal ill-formed subpart and therefore
never fails. -/
def utf8DecodeReplace (bs : List Nat) : List Char := utf8DecodeAux bs.length bs

/-- Line-break characters of the Python method `str.splitlines`. -/
def isLineBreak (c : Char) : Bool :=
  c = '\n' ∨ c = '\r' ∨ c.toNat = 0x0B ∨ c.toNat = 0x0C ∨ c.toNat = 0x1C ∨
  c.toNat = 0x1D ∨ c.toNat = 0x1E ∨ c.toNat = 0x85 ∨ c.toNat = 0x2028 ∨ c.toNat = 0x2029

/-- Worker for `pySplitlines`; `cur` holds the current line reversed. -/
def splitlinesAux : List Char → List Char → List (List Char)
  | [], cur => if cur.isEmpty then [] else [cur.reverse]
  | '\r' :: '\n' :: rest, cur => cur.reverse :: splitlinesAux rest []
  | c :: rest, cur =>
    if isLineBreak c then cur.reverse :: splitlinesAux rest []
    else splitlinesAux rest (c :: cur)

/-- Models the Python method `str.splitlines()`: splits at line-break characters,
treating CR LF as a single break and emitting no trailing empty line. -/
def pySplitlines (s : List Char) : List (List Char) := splitlinesAux s []

/-- Whitespace characters stripped by the Python method `str.strip()`. -/
def isPySpace (c : Char) : Bool :=
  c.toNat ∈ [0x09, 0x0A, 0x0B, 0x0C, 0x0D, 0x1C, 0x1D, 0x1E, 0x1F, 0x20, 0x85,
    0xA0, 0x1680, 0x2000, 0x2001, 0x2002, 0x2003, 0x2004, 0x2005, 0x2006, 0x2007,
    0x2008, 0x2009, 0x200A, 0x2028, 0x2029, 0x202F, 0x205F, 0x3000]

/-- Models the Python method `str.strip()`: removes whitespace from both ends. -/
def pyStrip (s : List Char) : List Char :=
  ((s.dropWhile isPySpace).reverse.dropWhile isPySpace).reverse

/-- One parsed `<GRP>` line, as appended to `group_definitions`
(the display-only `decoded` string of the source dictionary is omitted;
it is built from the same tokens). -/
structure GroupDef where
  rawLine : List Char
  tokens : List Nat
deriving DecidableEq, Repr

/-- Numeric value of a list of ASCII digits, as `int()` computes it. -/
def digitsVal (ds : List Char) : Nat := ds.foldl (fun a c => 10 * a + (c.toNat - 48)) 0

/-- Embeds `parseGroupLine` (identical token logic in both converter
variants): strip the line, drop the 5-character `<GRP>` marker, split on
commas, keep only the digit characters of each token and skip tokens left
empty.  (The Python method `ch.isdigit()` also accepts some non-ASCII digit
characters on which `int()` can then fail; such characters never reach a
token value, and ASCII digits behave identically, as modelled here.) -/
def parseGroupLine (line : List Char) : GroupDef :=
  { rawLine := pyStrip line
    tokens := (List.splitOn ',' ((pyStrip line).drop 5)).filterMap (fun tok =>
      let digits := tok.filter Char.isDigit
      if digits.isEmpty then none else some (digitsVal digits)) }

/-- The `<GRP>` group marker checked with `line.startswith("<GRP>")`. -/
def grpMarker : List Char := "<GRP>".toList

/-- Embeds the descriptor-chunk path (`parseDescriptorChunk` in
MovesenseTool, the inline `id == 0` branch of `processSBEM` in
pc-extractor-parser; the two are identical): decode the payload as UTF-8
with replacement, then parse every line that starts with `<GRP>`. -/
def descriptorGroups (payload : List Nat) : List GroupDef :=
  ((pySplitlines (utf8DecodeReplace payload)).filter
    (fun l => grpMarker.isPrefixOf l)).map parseGroupLine

/-- The per-file mutable output of `processSBEM`: the running chunk index and
the `data_chunks` / `group_definitions` accumulator lists. -/
structure DecodeState where
  chunkIndex : Nat
  dataChunks : List Record
  groupDefs : List GroupDef
deriving DecidableEq, Repr

/-- The initial (cleared) per-file state. -/
def initDecodeState : DecodeState := ⟨0, [], []⟩

/-- Chunk handling of one loop iteration in `processSBEM`, parameterised by
the data-chunk dispatch of the converter variant: chunk id 0 is always the
descriptor path, every other id goes to `parseDataChunk`; the chunk index is
incremented either way. -/
def stepChunk (dispatch : Nat → List Nat → Nat → List Record → List Record)
    (id : Nat) (payload : List Nat) (st : DecodeState) : DecodeState :=
  if id = 0 then
    { st with groupDefs := st.groupDefs ++ descriptorGroups payload
              chunkIndex := st.chunkIndex + 1 }
  else
    { st with dataChunks := dispatch id payload st.chunkIndex st.dataChunks
              chunkIndex := st.chunkIndex + 1 }

/-- Fuelled embedding of the `while True` chunk loop of `processSBEM`
(both variants): read an id, read a length, read exactly that many payload
bytes; a failed id or length read ends the file normally, and a payload
shorter than the declared length (`len(chunk_bytes) != datasize`) breaks out
of the loop, keeping everything decoded so far.  Each iteration consumes at
least two bytes, so fuel equal to the stream length suffices. -/
def parseChunksFrom (dispatch : Nat → List Nat → Nat → List Record → List Record) :
    Nat → List Nat → DecodeState → DecodeState
  | 0, _, st => st
  | fuel + 1, s, st =>
    match readId s with
    | none => st
    | some (id, r1) =>
      match readLen r1 with
      | none => st
      | some (len, r2) =>
        if len ≤ r2.length then
          parseChunksFrom dispatch fuel (r2.drop len) (stepChunk dispatch id (r2.take len) st)
        else st

/-- Embeds `processSBEM` up to its returned/global state: skip the opaque
8-byte header (`readHeader`), then run the chunk loop on cleared state. -/
def processFile (dispatch : Nat → List Nat → Nat → List Record → List Record)
    (s : List Nat) : DecodeState :=
  parseChunksFrom dispatch s.length (s.drop 8) initDecodeState

/-- `processSBEM` of `MovesenseTool/conversion/converter.py` (lines 239-279);
the function returns the `data_chunks` list. -/
def MT.processSBEM (s : List Nat) : List Record := (processFile MT.parseDataChunk s).dataChunks

/-- `processSBEM` of `pc-extractor-parser/conversion/converter.py`
(lines 192-244); the function returns the `data_chunks` list. -/
def PC.processSBEM (s : List Nat) : List Record := (processFile PC.parseDataChunk s).dataChunks

/-- Batch conversion over many files (the `for sbem_file in sbem_files` /
per-file `convert_sbem` driver loops): each file is decoded independently on
a cleared state. -/
def PC.processAll (files : List (List Nat)) : List (List Record) := files.map PC.processSBEM

/-- The symmetric chunk-id writer matching `readId` (the container is
written by the sensor firmware; the one-byte form is chosen whenever the
value fits, the escaped 3-byte form otherwise).  Used to construct
well-formed input streams for theorems about the decoder. -/
def encodeId (id : Nat) : List Nat :=
  if id < 255 then [id] else [255, id % 256, id / 256 % 256]

/-- The symmetric length writer matching `readLen`. -/
def encodeLen (n : Nat) : List Nat :=
  if n < 255 then [n]
  else [255, n % 256, n / 256 % 256, n / 65536 % 256, n / 16777216 % 256]

/-- Container encoding of one `(id, payload)` chunk. -/
def encodeChunk (c : Nat × List Nat) : List Nat :=
  encodeId c.1 ++ encodeLen c.2.length ++ c.2

/-- Container encoding of a chunk sequence. -/
def encodeChunks (cs : List (Nat × List Nat)) : List Nat := (cs.map encodeChunk).flatten

/-- Processing a chunk list directly (the state after the loop has consumed
exactly these chunks). -/
def stepChunks (dispatch : Nat → List Nat → Nat → List Record → List Record)
    (st : DecodeState) (cs : List (Nat × List Nat)) : DecodeState :=
  cs.foldl (fun st c => stepChunk dispatch c.1 c.2 st) st

/-- Embeds the FETCH_LOG command construction of `fetch_log`
(`extraction/extractor.py` line 117, `fetch_logbook_data.py` line 111):
`bytearray([3, 101, log_id, 0, 0, 0])`.  `bytearray` raises `ValueError`
when an element is not in `range(0, 256)`, modelled by `none`. -/
def mkFetchCommand (logId : Nat) : Option (List Nat) :=
  if logId < 256 then some [3, 101, logId, 0, 0, 0] else none

/-- Little-endian 4-byte encoding of a u32, as the module docstrings
describe for bytes 2-5 of the FETCH_LOG command. -/
def leBytes4 (n : Nat) : List Nat :=
  [n % 256, n / 256 % 256, n / 65536 % 256, n / 16777216 % 256]

/-- One already-split notification fragment: the u32 offset (bytes 0-3 of
the queue item) and the remaining payload bytes. -/
structure Frag where
  off : Nat
  payload : List Nat
deriving DecidableEq, Repr

/-- An item taken from the notification queue by the receive loop of `fetch_log`:
a data fragment, or a non-`bytearray` message which is logged and skipped. -/
inductive SessionItem where
  | frag (fr : Frag)
  | junk
deriving DecidableEq, Repr

/-- How the receive loop terminates when the queued items run out:
`asyncio.TimeoutError` (no notification within the 10-second budget), a
transport-level exception caught by the surrounding `try`, or the
disconnect event ending the `while` loop (the Python function then returns
`None` by falling off the end). -/
inductive SessionEnd where
  | timeout
  | fault
  | disconnect
deriving DecidableEq, Repr

/-- The log file buffer: `none` at positions never written
(read back as zero bytes in the sparse file). -/
def Buffer : Type := Nat → Option Nat

/-- The empty buffer of a freshly opened file. -/
def emptyBuffer : Buffer := fun _ => none

/-- Position `p` lies in the byte range written by fragment `fr`. -/
def covers (fr : Frag) (p : Nat) : Prop := fr.off ≤ p ∧ p < fr.off + fr.payload.length

instance (fr : Frag) (p : Nat) : Decidable (covers fr p) := by
  unfold covers
  infer_instance

/-- Two fragments write disjoint byte ranges. -/
def FragDisjoint (f g : Frag) : Prop :=
  f.off + f.payload.length ≤ g.off ∨ g.off + g.payload.length ≤ f.off

instance (f g : Frag) : Decidable (FragDisjoint f g) := by
  unfold FragDisjoint
  infer_instance

/-- Embeds `f.seek(offset); f.write(payload)`: the payload bytes overwrite
positions `off ..< off + len` (those the fragment covers) and every other
position is unchanged. -/
def writeFrag (b : Buffer) (fr : Frag) : Buffer :=
  fun p => if covers fr p then some (fr.payload.getD (p - fr.off) 0) else b p

/-- Writing a list of fragments in order. -/
def writeFrags (frs : List Frag) (b : Buffer) : Buffer := frs.foldl writeFrag b

/-- Embeds the receive loop of `fetch_log` (both variants, lines 121-143 of
`extraction/extractor.py`): non-empty fragments are written at their stated
offset, an empty payload is the EOF marker and returns `True`; when the
items run out, a timeout returns `False`, a transport fault is caught and
returns `False`, and a disconnect falls off the loop returning `None`
(modelled as `none`). -/
def runSession : List SessionItem → SessionEnd → Buffer → Buffer × Option Bool
  | [], e, b =>
    (b, match e with
        | SessionEnd.timeout => some false
        | SessionEnd.fault => some false
        | SessionEnd.disconnect => none)
  | SessionItem.junk :: rest, e, b => runSession rest e b
  | SessionItem.frag fr :: rest, e, b =>
    if 0 < fr.payload.length then runSession rest e (writeFrag b fr)
    else (b, some true)

/-- Embeds the per-device drain loop of `run_ble_client` (both variants):
while the consecutive-miss count is below the threshold, fetch the current
log id (one outcome consumed per attempt), reset the count on success and
increment it on a miss, then move to the next log id.  The outcome list
ending models the disconnect event; the returned list is the sequence of
log ids attempted. -/
def drainLoop (threshold : Nat) : List Bool → Nat → Nat → List Nat
  | [], _, _ => []
  | o :: rest, logId, misses =>
    if misses < threshold then
      logId :: drainLoop threshold rest (logId + 1) (if o then 0 else misses + 1)
    else []

/-- The drain loop as started by `run_ble_client`: `current_log_id = 1`,
`consecutive_misses = 0`. -/
def drainAttempts (threshold : Nat) (outcomes : List Bool) : List Nat :=
  drainLoop threshold outcomes 1 0

/-- Scheduler state of `ExtractionThread.run_extraction`: which device
indices are in the `busy` set, which device each worker currently holds,
which are completed, and which are currently discovered
(`found_sensor_ids`, mutated concurrently by the scanner). -/
structure SchedState where
  busy : Nat → Bool
  holds : Nat → Option Nat
  completed : Nat → Bool
  discovered : Nat → Bool

/-- The initial scheduler state: no device busy or completed, no worker
holding a device, an arbitrary initial discovery snapshot. -/
def initSched (d : Nat → Bool) : SchedState :=
  { busy := fun _ => false, holds := fun _ => none, completed := fun _ => false, discovered := d }

/-- Atomic transitions of the scheduler (`worker` in
`gui/main_window.py` lines 120-219).  `select` is the critical section under
`selection_lock` that picks an eligible device (not completed, not in
`busy`, currently discovered) and adds it to `busy` before the worker
processes it; it is deliberately more permissive than the source
random-choice-excluding-last heuristic, which only shrinks the eligible
set.  `finish` is the critical section that (optionally marking the device
completed) removes it from `busy` when the worker is done, covering the
success, failure and not-found-at-extraction-time paths.  `scan` is the
scanner thread replacing the discovery snapshot at any time. -/
inductive SchedStep : SchedState → SchedState → Prop
  | select (s : SchedState) (w i : Nat) :
      s.holds w = none → s.completed i = false → s.busy i = false → s.discovered i = true →
      SchedStep s { s with busy := Function.update s.busy i true
                           holds := Function.update s.holds w (some i) }
  | finish (s : SchedState) (w i : Nat) (ok : Bool) :
      s.holds w = some i →
      SchedStep s { s with busy := Function.update s.busy i false
                           holds := Function.update s.holds w none
                           completed := if ok then Function.update s.completed i true
                                        else s.completed }
  | scan (s : SchedState) (d : Nat → Bool) :
      SchedStep s { s with discovered := d }

/-- States reachable from an initial state by scheduler transitions. -/
def SchedReachable (d : Nat → Bool) (s : SchedState) : Prop :=
  Relation.ReflTransGen SchedStep (initSched d) s

/-- The instrumented mutual-exclusion invariant: every held device is in the
busy set, and no two workers hold the same device. -/
def SchedInv (s : SchedState) : Prop :=
  (∀ w i, s.holds w = some i → s.busy i = true) ∧
  (∀ w1 w2 i, s.holds w1 = some i → s.holds w2 = some i → w1 = w2)

/-- Whether a record is a heart-rate record. -/
def isHR : Record → Bool
  | Record.hr _ _ _ => true
  | _ => false

/-- The scheduler state after one `select` step from a fresh state in which
every device is discovered: worker 0 holds device 0. -/
def schedDemo : SchedState :=
  { busy := Function.update (fun _ => false) 0 true
    holds := Function.update (fun _ => none) 0 (some 0)
    completed := fun _ => false
    discovered := fun _ => true }

/-- Validity bound for chunk sequences built by the canonical writer: ids fit
in the 16-bit escape form and payload lengths in the 32-bit escape form. -/
def ChunksValid (cs : List (Nat × List Nat)) : Prop :=
  ∀ c ∈ cs, c.1 < 65536 ∧ c.2.length < 4294967296

instance (cs : List (Nat × List Nat)) : Decidable (ChunksValid cs) := by
  unfold ChunksValid
  infer_instance

/-! ## Codec lemmas -/

/-- A byte below the escape value is itself the id. -/
theorem readId_lt {b : Nat} (s : List Nat) (h : b < 255) : readId (b :: s) = some (b, s) := by
  simp [readId, Nat.not_le.2 h]

/-- The escaped form: 255 followed by a little-endian 16-bit id. -/
theorem readId_escape (b0 b1 : Nat) (s : List Nat) :
    readId (255 :: b0 :: b1 :: s) = some (b0 + 256 * b1, s) := rfl

/-- `readId` fails exactly on the empty stream or an escaped id with fewer
than two following bytes. -/
theorem readId_none_iff (s : List Nat) :
    readId s = none ↔ s = [] ∨ ∃ b t, s = b :: t ∧ 255 ≤ b ∧ t.length < 2 := by
  cases s with
  | nil => simp [readId]
  | cons b rest =>
    by_cases hb : 255 ≤ b
    · cases rest with
      | nil =>
        simp only [readId, if_pos hb]
        exact ⟨fun _ => Or.inr ⟨b, [], rfl, hb, by simp⟩, fun _ => trivial⟩
      | cons b0 r0 =>
        cases r0 with
        | nil =>
          simp only [readId, if_pos hb]
          exact ⟨fun _ => Or.inr ⟨b, [b0], rfl, hb, by simp⟩, fun _ => trivial⟩
        | cons b1 r1 =>
          simp only [readId, if_pos hb]
          constructor
          · intro h
            exact absurd h (by simp)
          · rintro (h | ⟨c, t, het, hc, hlen⟩)
            · exact absurd h (by simp)
            · injection het with h1 h2
              subst h2
              simp only [List.length_cons] at hlen
              omega
    · simp only [readId, if_neg hb]
      constructor
      · intro h
        exact absurd h (by simp)
      · rintro (h | ⟨c, t, het, hc, hlen⟩)
        · exact absurd h (by simp)
        · injection het with h1 h2
          omega

/-- `readId` consumes at least one byte. -/
theorem readId_length {s : List Nat} {id : Nat} {r : List Nat}
    (h : readId s = some (id, r)) : r.length < s.length := by
  cases s with
  | nil => simp [readId] at h
  | cons b rest =>
    by_cases hb : 255 ≤ b
    · cases rest with
      | nil => simp [readId, hb] at h
      | cons b0 r0 =>
        cases r0 with
        | nil => simp [readId, hb] at h
        | cons b1 r1 =>
          simp [readId, hb] at h
          obtain ⟨-, h2⟩ := h
          subst h2
          simp only [List.length_cons]
          omega
    · simp [readId, hb] at h
      obtain ⟨-, h2⟩ := h
      subst h2
      simp only [List.length_cons]
      omega

/-- A byte below the escape value is itself the length. -/
theorem readLen_lt {b : Nat} (s : List Nat) (h : b < 255) : readLen (b :: s) = some (b, s) := by
  simp [readLen, h]

/-- The escaped form: 255 followed by a little-endian 32-bit length. -/
theorem readLen_escape (b0 b1 b2 b3 : Nat) (s : List Nat) :
    readLen (255 :: b0 :: b1 :: b2 :: b3 :: s) =
      some (b0 + 256 * (b1 + 256 * (b2 + 256 * b3)), s) := rfl

/-- `readLen` fails exactly on the empty stream or an escaped length with
fewer than four following bytes. -/
theorem readLen_none_iff (s : List Nat) :
    readLen s = none ↔ s = [] ∨ ∃ b t, s = b :: t ∧ 255 ≤ b ∧ t.length < 4 := by
  cases s with
  | nil => simp [readLen]
  | cons b rest =>
    by_cases hb : b < 255
    · simp only [readLen, if_pos hb]
      constructor
      · intro h
        exact absurd h (by simp)
      · rintro (h | ⟨c, t, het, hc, hlen⟩)
        · exact absurd h (by simp)
        · injection het with h1 h2
          omega
    · have hb2 : 255 ≤ b := Nat.not_lt.1 hb
      cases rest with
      | nil =>
        simp only [readLen, if_neg hb]
        exact ⟨fun _ => Or.inr ⟨b, [], rfl, hb2, by simp⟩, fun _ => trivial⟩
      | cons b0 r0 =>
        cases r0 with
        | nil =>
          simp only [readLen, if_neg hb]
          exact ⟨fun _ => Or.inr ⟨b, [b0], rfl, hb2, by simp⟩, fun _ => trivial⟩
        | cons b1 r1 =>
          cases r1 with
          | nil =>
            simp only [readLen, if_neg hb]
            exact ⟨fun _ => Or.inr ⟨b, [b0, b1], rfl, hb2, by simp⟩, fun _ => trivial⟩
          | cons b2 r2 =>
            cases r2 with
            | nil =>
              simp only [readLen, if_neg hb]
              exact ⟨fun _ => Or.inr ⟨b, [b0, b1, b2], rfl, hb2, by simp⟩, fun _ => trivial⟩
            | cons b3 r3 =>
              simp only [readLen, if_neg hb]
              constructor
              · intro h
                exact absurd h (by simp)
              · rintro (h | ⟨c, t, het, hc, hlen⟩)
                · exact absurd h (by simp)
                · injection het with h1 h2
                  subst h2
                  simp only [List.length_cons] at hlen
                  omega

/-- `readLen` consumes at least one byte. -/
theorem readLen_length {s : List Nat} {n : Nat} {r : List Nat}
    (h : readLen s = some (n, r)) : r.length < s.length := by
  cases s with
  | nil => simp [readLen] at h
  | cons b rest =>
    by_cases hb : b < 255
    · simp [readLen, hb] at h
      obtain ⟨-, h2⟩ := h
      subst h2
      simp only [List.length_cons]
      omega
    · cases rest with
      | nil => simp [readLen, hb] at h
      | cons b0 r0 =>
        cases r0 with
        | nil => simp [readLen, hb] at h
        | cons b1 r1 =>
          cases r1 with
          | nil => simp [readLen, hb] at h
          | cons b2 r2 =>
            cases r2 with
            | nil => simp [readLen, hb] at h
            | cons b3 r3 =>
              simp [readLen, hb] at h
              obtain ⟨-, h2⟩ := h
              subst h2
              simp only [List.length_cons]
              omega

/-! ## Chunk-loop lemmas -/

/-- The chunk loop does not depend on the fuel once it covers the stream
length (each iteration consumes at least two bytes). -/
theorem parseChunksFrom_fuel (d : Nat → List Nat → Nat → List Record → List Record) :
    ∀ f1 f2 s st, s.length ≤ f1 → s.length ≤ f2 →
      parseChunksFrom d f1 s st = parseChunksFrom d f2 s st := by
  intro f1
  induction f1 with
  | zero =>
    intro f2 s st h1 h2
    have hs : s = [] := List.eq_nil_of_length_eq_zero (Nat.le_zero.1 h1)
    subst hs
    cases f2 with
    | zero => rfl
    | succ b => simp [parseChunksFrom, readId]
  | succ a ih =>
    intro f2 s st h1 h2
    cases f2 with
    | zero =>
      have hs : s = [] := List.eq_nil_of_length_eq_zero (Nat.le_zero.1 h2)
      subst hs
      simp [parseChunksFrom, readId]
    | succ b =>
      simp only [parseChunksFrom]
      rcases hid : readId s with _ | ⟨id, r1⟩ <;> simp only [hid]
      rcases hlen : readLen r1 with _ | ⟨len, r2⟩ <;> simp only [hlen]
      by_cases hle : len ≤ r2.length
      · simp only [if_pos hle]
        have e1 : r1.length < s.length := readId_length hid
        have e2 : r2.length < r1.length := readLen_length hlen
        have e3 : (r2.drop len).length ≤ r2.length := by
          simp [List.length_drop]
        exact ih b (r2.drop len) _ (by omega) (by omega)
      · simp [if_neg hle]

/-- Unfolding the chunk loop at a stream whose first chunk is complete. -/
theorem parseChunksFrom_chunk {d : Nat → List Nat → Nat → List Record → List Record}
    {s : List Nat} {id len : Nat} {r1 r2 : List Nat} {st : DecodeState} {fuel : Nat}
    (hf : s.length ≤ fuel) (h1 : readId s = some (id, r1))
    (h2 : readLen r1 = some (len, r2)) (h3 : len ≤ r2.length) :
    parseChunksFrom d fuel s st =
      parseChunksFrom d (r2.drop len).length (r2.drop len) (stepChunk d id (r2.take len) st) := by
  cases fuel with
  | zero =>
    have hs : s = [] := List.eq_nil_of_length_eq_zero (Nat.le_zero.1 hf)
    subst hs
    simp [readId] at h1
  | succ a =>
    simp only [parseChunksFrom, h1, h2, if_pos h3]
    have e1 : r1.length < s.length := readId_length h1
    have e2 : r2.length < r1.length := readLen_length h2
    have e3 : (r2.drop len).length ≤ r2.length := by simp [List.length_drop]
    exact parseChunksFrom_fuel d a (r2.drop len).length (r2.drop len) _ (by omega) (by omega)

/-- The chunk loop stops (keeping the state) when no id can be read. -/
theorem parseChunksFrom_stop_id {d : Nat → List Nat → Nat → List Record → List Record}
    {s : List Nat} {st : DecodeState} {fuel : Nat} (h1 : readId s = none) :
    parseChunksFrom d fuel s st = st := by
  cases fuel with
  | zero => rfl
  | succ a => simp [parseChunksFrom, h1]

/-- The chunk loop stops (keeping the state) when no length can be read. -/
theorem parseChunksFrom_stop_len {d : Nat → List Nat → Nat → List Record → List Record}
    {s : List Nat} {id : Nat} {r1 : List Nat} {st : DecodeState} {fuel : Nat}
    (h1 : readId s = some (id, r1)) (h2 : readLen r1 = none) :
    parseChunksFrom d fuel s st = st := by
  cases fuel with
  | zero => rfl
  | succ a => simp [parseChunksFrom, h1, h2]

/-- The chunk loop breaks (keeping the state) when the declared length
exceeds the remaining bytes. -/
theorem parseChunksFrom_trunc {d : Nat → List Nat → Nat → List Record → List Record}
    {s : List Nat} {id len : Nat} {r1 r2 : List Nat} {st : DecodeState} {fuel : Nat}
    (h1 : readId s = some (id, r1)) (h2 : readLen r1 = some (len, r2))
    (h3 : ¬ len ≤ r2.length) :
    parseChunksFrom d fuel s st = st := by
  cases fuel with
  | zero => rfl
  | succ a => simp [parseChunksFrom, h1, h2, if_neg h3]

/-- Two streams on which `readId` agrees are decoded identically: the loop
consults the stream only through `readId`. -/
theorem parseChunksFrom_congr_readId {d : Nat → List Nat → Nat → List Record → List Record}
    {s1 s2 : List Nat} {f1 f2 : Nat} (st : DecodeState) (h : readId s1 = readId s2)
    (hf1 : s1.length ≤ f1) (hf2 : s2.length ≤ f2) :
    parseChunksFrom d f1 s1 st = parseChunksFrom d f2 s2 st := by
  rcases hid : readId s1 with _ | ⟨id, r1⟩
  · rw [parseChunksFrom_stop_id hid, parseChunksFrom_stop_id (h ▸ hid)]
  · have hid2 : readId s2 = some (id, r1) := h ▸ hid
    rcases hlen : readLen r1 with _ | ⟨len, r2⟩
    · rw [parseChunksFrom_stop_len hid hlen, parseChunksFrom_stop_len hid2 hlen]
    · by_cases hle : len ≤ r2.length
      · rw [parseChunksFrom_chunk hf1 hid hlen hle, parseChunksFrom_chunk hf2 hid2 hlen hle]
      · rw [parseChunksFrom_trunc hid hlen hle, parseChunksFrom_trunc hid2 hlen hle]

/-- The canonical id encoding decodes to the value it was built from. -/
theorem readId_encodeId {id : Nat} (h : id < 65536) (t : List Nat) :
    readId (encodeId id ++ t) = some (id, t) := by
  by_cases h1 : id < 255
  · simp only [encodeId, if_pos h1, List.cons_append, List.nil_append]
    exact readId_lt t h1
  · simp only [encodeId, if_neg h1, List.cons_append, List.nil_append]
    rw [readId_escape]
    congr 1
    congr 1
    omega

/-- The canonical length encoding decodes to the value it was built from. -/
theorem readLen_encodeLen {n : Nat} (h : n < 4294967296) (t : List Nat) :
    readLen (encodeLen n ++ t) = some (n, t) := by
  by_cases h1 : n < 255
  · simp only [encodeLen, if_pos h1, List.cons_append, List.nil_append]
    exact readLen_lt t h1
  · simp only [encodeLen, if_neg h1, List.cons_append, List.nil_append]
    rw [readLen_escape]
    congr 1
    congr 1
    omega

/-- The chunk loop consumes an encoded chunk sequence chunk by chunk and then
continues on whatever follows it. -/
theorem parseChunksFrom_encodeChunks
    (d : Nat → List Nat → Nat → List Record → List Record) (cs : List (Nat × List Nat)) :
    ∀ tail st fuel, ChunksValid cs → (encodeChunks cs ++ tail).length ≤ fuel →
      parseChunksFrom d fuel (encodeChunks cs ++ tail) st =
        parseChunksFrom d tail.length tail (stepChunks d st cs) := by
  induction cs with
  | nil =>
    intro tail st fuel _ hf
    simp only [encodeChunks, List.map_nil, List.flatten_nil, List.nil_append] at hf ⊢
    exact parseChunksFrom_fuel d fuel tail.length tail st hf (le_refl _)
  | cons c cs ih =>
    intro tail st fuel hv hf
    have hc := hv c (List.mem_cons_self c cs)
    have hcs : ChunksValid cs := fun x hx => hv x (List.mem_cons_of_mem c hx)
    have hstream : encodeChunks (c :: cs) ++ tail =
        encodeId c.1 ++ (encodeLen c.2.length ++ (c.2 ++ (encodeChunks cs ++ tail))) := by
      simp [encodeChunks, encodeChunk, List.append_assoc]
    rw [hstream] at hf ⊢
    have h1 : readId (encodeId c.1 ++ (encodeLen c.2.length ++ (c.2 ++ (encodeChunks cs ++ tail)))) =
        some (c.1, encodeLen c.2.length ++ (c.2 ++ (encodeChunks cs ++ tail))) :=
      readId_encodeId hc.1 _
    have h2 : readLen (encodeLen c.2.length ++ (c.2 ++ (encodeChunks cs ++ tail))) =
        some (c.2.length, c.2 ++ (encodeChunks cs ++ tail)) :=
      readLen_encodeLen hc.2 _
    have h3 : c.2.length ≤ (c.2 ++ (encodeChunks cs ++ tail)).length := by
      simp
    rw [parseChunksFrom_chunk hf h1 h2 h3]
    rw [List.take_left' rfl, List.drop_left' rfl]
    rw [ih tail (stepChunk d c.1 c.2 st) (encodeChunks cs ++ tail).length hcs (le_refl _)]
    rfl

/-! ## Session lemmas -/

/-- A run over non-empty fragments followed by an EOF marker writes all
fragments and completes. -/
theorem runSession_frags (e : SessionEnd) :
    ∀ (l : List Frag) (b : Buffer), (∀ f ∈ l, f.payload ≠ []) →
      runSession (l.map SessionItem.frag ++ [SessionItem.frag ⟨0, []⟩]) e b =
        (writeFrags l b, some true) := by
  intro l
  induction l with
  | nil =>
    intro b _
    simp [runSession, writeFrags]
  | cons f t ih =>
    intro b hne
    have hf : f.payload ≠ [] := hne f (List.mem_cons_self f t)
    have hlen : 0 < f.payload.length := List.length_pos.2 hf
    simp only [List.map_cons, List.cons_append, runSession, if_pos hlen, List.append_eq]
    rw [ih (writeFrag b f) (fun g hg => hne g (List.mem_cons_of_mem f hg))]
    rfl

/-- Positions covered by no fragment keep their prior contents. -/
theorem writeFrags_not_covered :
    ∀ (l : List Frag) (b : Buffer) (p : Nat), (∀ f ∈ l, ¬ covers f p) →
      writeFrags l b p = b p := by
  intro l
  induction l with
  | nil => intro b p _; rfl
  | cons g t ih =>
    intro b p hnc
    have hg : ¬ covers g p := hnc g (List.mem_cons_self g t)
    have : writeFrags (g :: t) b = writeFrags t (writeFrag b g) := rfl
    rw [this, ih (writeFrag b g) p (fun f hf => hnc f (List.mem_cons_of_mem g hf))]
    simp only [writeFrag]
    rw [if_neg hg]

/-- With pairwise-disjoint fragments, a covered position holds the byte of
the unique fragment covering it, independent of delivery order. -/
theorem writeFrags_covered :
    ∀ (l : List Frag) (b : Buffer) (p : Nat) (f : Frag),
      List.Pairwise FragDisjoint l → f ∈ l → covers f p →
      writeFrags l b p = some (f.payload.getD (p - f.off) 0) := by
  intro l
  induction l with
  | nil => intro b p f _ hf; cases hf
  | cons g t ih =>
    intro b p f hpw hf hcov
    have hstep : writeFrags (g :: t) b = writeFrags t (writeFrag b g) := rfl
    rcases List.mem_cons.1 hf with hfg | hft
    · subst hfg
      have hnone : ∀ h ∈ t, ¬ covers h p := by
        intro h ht hcontra
        rcases (List.pairwise_cons.1 hpw).1 h ht with hd | hd
        · exact absurd hcov.2 (by unfold covers at hcontra; omega)
        · exact absurd hcov.1 (by unfold covers at hcontra; omega)
      rw [hstep, writeFrags_not_covered t (writeFrag b f) p hnone]
      simp only [writeFrag]
      rw [if_pos hcov]
    · rw [hstep]
      exact ih (writeFrag b g) p f (List.pairwise_cons.1 hpw).2 hft hcov

/-- Writing a pairwise-disjoint fragment list is invariant under
permutation of the list. -/
theorem writeFrags_perm {l1 l2 : List Frag} (hperm : l1.Perm l2)
    (hpw : List.Pairwise FragDisjoint l1) (b : Buffer) (p : Nat) :
    writeFrags l1 b p = writeFrags l2 b p := by
  have hpw2 : List.Pairwise FragDisjoint l2 :=
    (hperm.pairwise_iff (fun {f g} (h : FragDisjoint f g) => Or.symm h)).1 hpw
  by_cases hc : ∃ f ∈ l1, covers f p
  · obtain ⟨f, hf, hcov⟩ := hc
    rw [writeFrags_covered l1 b p f hpw hf hcov,
        writeFrags_covered l2 b p f hpw2 (hperm.mem_iff.1 hf) hcov]
  · push_neg at hc
    rw [writeFrags_not_covered l1 b p hc,
        writeFrags_not_covered l2 b p (fun f hf => hc f (hperm.mem_iff.2 hf))]

/-- A transport fault and a timeout yield the same return value (`False`)
in every session: the caller cannot tell them apart. -/
theorem runSession_fault_eq_timeout :
    ∀ (items : List SessionItem) (b : Buffer),
      (runSession items SessionEnd.fault b).2 = (runSession items SessionEnd.timeout b).2 := by
  intro items
  induction items with
  | nil => intro b; rfl
  | cons it rest ih =>
    intro b
    cases it with
    | junk => exact ih b
    | frag fr =>
      simp only [runSession]
      by_cases h : 0 < fr.payload.length
      · rw [if_pos h, if_pos h]
        exact ih (writeFrag b fr)
      · rw [if_neg h, if_neg h]

/-! ## Drain-loop lemmas -/

/-- The drain loop attempts consecutive log ids from its starting id. -/
theorem drainLoop_range (threshold : Nat) :
    ∀ (outs : List Bool) (logId misses : Nat),
      drainLoop threshold outs logId misses =
        List.range' logId (drainLoop threshold outs logId misses).length := by
  intro outs
  induction outs with
  | nil => intro logId misses; rfl
  | cons o rest ih =>
    intro logId misses
    by_cases h : misses < threshold
    · simp only [drainLoop, if_pos h, List.length_cons, List.range'_succ]
      exact congrArg (logId :: ·) (ih (logId + 1) _)
    · simp [drainLoop, if_neg h]

/-- The drain loop makes no attempt once the miss count reaches the
threshold. -/
theorem drainLoop_stop {threshold misses : Nat} (h : threshold ≤ misses)
    (outs : List Bool) (logId : Nat) : drainLoop threshold outs logId misses = [] := by
  cases outs with
  | nil => rfl
  | cons o rest => simp [drainLoop, Nat.not_lt.2 h]

/-! ## Scheduler lemmas -/

/-- The initial scheduler state satisfies the mutual-exclusion invariant. -/
theorem schedInv_init (d : Nat → Bool) : SchedInv (initSched d) := by
  constructor
  · intro w i h
    simp [initSched] at h
  · intro w1 w2 i h1 h2
    simp [initSched] at h1

/-- Every scheduler transition preserves the mutual-exclusion invariant:
`select` only picks devices outside the busy set and adds them under the
lock, and `finish` clears exactly the device of the finishing worker. -/
theorem schedInv_step {s t : SchedState} (hinv : SchedInv s) (hstep : SchedStep s t) :
    SchedInv t := by
  obtain ⟨h1, h2⟩ := hinv
  cases hstep with
  | select w i hw hc hb hd =>
    constructor
    · intro w0 j hj
      dsimp only at hj ⊢
      by_cases hww : w0 = w
      · subst hww
        rw [Function.update_same] at hj
        cases hj
        rw [Function.update_same]
      · rw [Function.update_noteq hww] at hj
        have hbj := h1 w0 j hj
        by_cases hji : j = i
        · subst hji
          rw [Function.update_same]
        · rw [Function.update_noteq hji]
          exact hbj
    · intro w1 w2 j hj1 hj2
      dsimp only at hj1 hj2
      by_cases hw1 : w1 = w <;> by_cases hw2 : w2 = w
      · rw [hw1, hw2]
      · subst hw1
        rw [Function.update_same] at hj1
        rw [Function.update_noteq hw2] at hj2
        cases hj1
        exact absurd (h1 w2 _ hj2) (by rw [hb]; simp)
      · subst hw2
        rw [Function.update_same] at hj2
        rw [Function.update_noteq hw1] at hj1
        cases hj2
        exact absurd (h1 w1 _ hj1) (by rw [hb]; simp)
      · rw [Function.update_noteq hw1] at hj1
        rw [Function.update_noteq hw2] at hj2
        exact h2 w1 w2 j hj1 hj2
  | finish w i ok hw =>
    constructor
    · intro w0 j hj
      dsimp only at hj ⊢
      by_cases hww : w0 = w
      · subst hww
        rw [Function.update_same] at hj
        cases hj
      · rw [Function.update_noteq hww] at hj
        have hbj := h1 w0 j hj
        by_cases hji : j = i
        · subst hji
          exact absurd (h2 w0 w j hj hw) hww
        · rw [Function.update_noteq hji]
          exact hbj
    · intro w1 w2 j hj1 hj2
      dsimp only at hj1 hj2
      by_cases hw1 : w1 = w
      · subst hw1
        rw [Function.update_same] at hj1
        cases hj1
      · by_cases hw2 : w2 = w
        · subst hw2
          rw [Function.update_same] at hj2
          cases hj2
        · rw [Function.update_noteq hw1] at hj1
          rw [Function.update_noteq hw2] at hj2
          exact h2 w1 w2 j hj1 hj2
  | scan d =>
    exact ⟨h1, h2⟩

/-- Every reachable scheduler state satisfies the invariant. -/
theorem schedInv_reachable {d : Nat → Bool} {s : SchedState} (h : SchedReachable d s) :
    SchedInv s := by
  induction h with
  | refl => exact schedInv_init d
  | tail hsteps hstep ih => exact schedInv_step ih hstep

/-! ## Claim theorems -/

/-- C2: `readId` reads one byte and returns it as the id when its value is
below 255; when it equals 255 it reads two more bytes as a little-endian
16-bit id.  `readLen` reads one byte as the length when below 255 and
otherwise four more bytes as a little-endian 32-bit length.  Each fails
(returns `none`) exactly when fewer bytes remain than the chosen encoding
requires. -/
theorem readId_readLen_encoding_spec :
    (∀ (b : Nat) (s : List Nat), b < 255 → readId (b :: s) = some (b, s)) ∧
    (∀ (b0 b1 : Nat) (s : List Nat), readId (255 :: b0 :: b1 :: s) = some (b0 + 256 * b1, s)) ∧
    (∀ s : List Nat, readId s = none ↔ s = [] ∨ ∃ b t, s = b :: t ∧ 255 ≤ b ∧ t.length < 2) ∧
    (∀ (b : Nat) (s : List Nat), b < 255 → readLen (b :: s) = some (b, s)) ∧
    (∀ (b0 b1 b2 b3 : Nat) (s : List Nat),
      readLen (255 :: b0 :: b1 :: b2 :: b3 :: s) =
        some (b0 + 256 * (b1 + 256 * (b2 + 256 * b3)), s)) ∧
    (∀ s : List Nat, readLen s = none ↔ s = [] ∨ ∃ b t, s = b :: t ∧ 255 ≤ b ∧ t.length < 4) :=
  ⟨fun _ s h => readId_lt s h, readId_escape, readId_none_iff,
   fun _ s h => readLen_lt s h, readLen_escape, readLen_none_iff⟩

/-- Witness for C2 at concrete inputs covering the one-byte forms, the
escaped forms and both truncation failures. -/
theorem readId_readLen_encoding_spec_witness :
    (5 < 255 ∧ readId [5, 9] = some (5, [9])) ∧
    readId [255, 1, 1, 7] = some (1 + 256 * 1, [7]) ∧
    readId [255, 3] = none ∧
    (10 < 255 ∧ readLen [10, 2] = some (10, [2])) ∧
    readLen [255, 0, 1, 0, 0, 8] = some (0 + 256 * (1 + 256 * (0 + 256 * 0)), [8]) ∧
    readLen [255, 1, 2] = none :=
  ⟨⟨by decide, readId_readLen_encoding_spec.1 5 [9] (by decide)⟩,
   readId_readLen_encoding_spec.2.1 1 1 [7],
   (readId_readLen_encoding_spec.2.2.1 [255, 3]).2
     (Or.inr ⟨255, [3], rfl, by decide, by decide⟩),
   ⟨by decide, readId_readLen_encoding_spec.2.2.2.1 10 [2] (by decide)⟩,
   readId_readLen_encoding_spec.2.2.2.2.1 0 1 0 0 [8],
   (readId_readLen_encoding_spec.2.2.2.2.2 [255, 1, 2]).2
     (Or.inr ⟨255, [1, 2], rfl, by decide, by decide⟩)⟩

/-- C10: the chunk-id decoder accepts non-canonical encodings: for every
value below 255 the escaped three-byte form decodes to the same id as the
canonical one-byte form, so decoding is not injective on encodings (two
distinct encodings of 7 decode identically); under `processSBEM` a chunk
whose id is escaped is processed exactly as with the one-byte form, and an
id of 0 — however encoded — takes the descriptor path, never the
length-based data dispatch. -/
theorem readId_non_canonical_spec :
    (∀ (v : Nat) (s : List Nat), v < 255 →
      readId (255 :: v :: 0 :: s) = some (v, s) ∧ readId (v :: s) = some (v, s)) ∧
    (readId [255, 7, 0] = readId [7] ∧ (255 :: 7 :: 0 :: ([] : List Nat)) ≠ [7]) ∧
    (∀ (hdr rest : List Nat) (v : Nat), hdr.length = 8 → v < 255 →
      processFile MT.parseDataChunk (hdr ++ 255 :: v :: 0 :: rest) =
        processFile MT.parseDataChunk (hdr ++ v :: rest)) ∧
    (∀ (payload : List Nat) (st : DecodeState),
      stepChunk MT.parseDataChunk 0 payload st =
        { st with groupDefs := st.groupDefs ++ descriptorGroups payload
                  chunkIndex := st.chunkIndex + 1 }) := by
  refine ⟨?_, ⟨rfl, by decide⟩, ?_, ?_⟩
  · intro v s hv
    refine ⟨?_, readId_lt s hv⟩
    rw [readId_escape]
    simp
  · intro hdr rest v h8 hv
    unfold processFile
    rw [List.drop_left' h8, List.drop_left' h8]
    refine parseChunksFrom_congr_readId initDecodeState ?_ ?_ ?_
    · rw [readId_escape, readId_lt rest hv]
      simp
    · simp
    · simp
  · intro payload st
    rfl

/-- Witness for C10 at value 0 and an 8-byte header: the escaped encoding
of id 0 is processed exactly as the one-byte form. -/
theorem readId_non_canonical_spec_witness :
    (0 < 255 ∧ readId [255, 0, 0, 5] = some (0, [5]) ∧ readId [0, 5] = some (0, [5])) ∧
    (([0, 0, 0, 0, 0, 0, 0, 0] : List Nat).length = 8 ∧
      processFile MT.parseDataChunk ([0, 0, 0, 0, 0, 0, 0, 0] ++ 255 :: 0 :: 0 :: [1, 65]) =
        processFile MT.parseDataChunk ([0, 0, 0, 0, 0, 0, 0, 0] ++ 0 :: [1, 65])) :=
  ⟨⟨by decide, (readId_non_canonical_spec.1 0 [5] (by decide)).1,
    (readId_non_canonical_spec.1 0 [5] (by decide)).2⟩,
   ⟨by decide,
    readId_non_canonical_spec.2.2.1 [0, 0, 0, 0, 0, 0, 0, 0] [1, 65] 0 (by decide) (by decide)⟩⟩

/-- C1 (amended): for every data chunk the payload decoders dispatch solely
on payload byte length.  A 52-byte payload appends exactly one Motion6/IMU
record (little-endian u32 timestamp from bytes 0-3, then 2 accelerometer and
2 gyroscope samples of 3 little-endian f32 bit patterns each) in both
converter variants; a 68-byte payload appends exactly one ECG record (u32
timestamp, 16 little-endian f32 samples) in both; a 6-byte payload appends
exactly one HeartRate record (f32 average from bytes 0-3, u16 rrInterval
from bytes 4-5) in the MovesenseTool decoder but exactly one Fallback
record in the pc-extractor-parser decoder, which has no heart-rate branch;
any other payload of length at least 4 appends exactly one Fallback record
whose value is the first 4 bytes as little-endian u32; a payload shorter
than 4 bytes appends no record and no crash occurs (the functions are
total). -/
theorem parseDataChunk_length_dispatch :
    (∀ (id : Nat) (data : List Nat) (idx : Nat) (acc : List Record), data.length = 52 →
      MT.parseDataChunk id data idx acc = acc ++
        [Record.imu idx (leVal (data.take 4))
          [⟨leVal ((data.drop 4).take 4), leVal ((data.drop 8).take 4),
            leVal ((data.drop 12).take 4)⟩,
           ⟨leVal ((data.drop 16).take 4), leVal ((data.drop 20).take 4),
            leVal ((data.drop 24).take 4)⟩]
          [⟨leVal ((data.drop 28).take 4), leVal ((data.drop 32).take 4),
            leVal ((data.drop 36).take 4)⟩,
           ⟨leVal ((data.drop 40).take 4), leVal ((data.drop 44).take 4),
            leVal ((data.drop 48).take 4)⟩]] ∧
      PC.parseDataChunk id data idx acc = MT.parseDataChunk id data idx acc) ∧
    (∀ (id : Nat) (data : List Nat) (idx : Nat) (acc : List Record), data.length = 68 →
      MT.parseDataChunk id data idx acc = acc ++
        [Record.ecg idx (leVal (data.take 4))
          ((List.range 16).map (fun i => leVal ((data.drop (4 + 4 * i)).take 4)))] ∧
      PC.parseDataChunk id data idx acc = MT.parseDataChunk id data idx acc) ∧
    (∀ (id : Nat) (data : List Nat) (idx : Nat) (acc : List Record), data.length = 6 →
      MT.parseDataChunk id data idx acc = acc ++
        [Record.hr idx (leVal (data.take 4)) (leVal ((data.drop 4).take 2))] ∧
      PC.parseDataChunk id data idx acc = acc ++
        [Record.fallback idx id (leVal (data.take 4))]) ∧
    (∀ (id : Nat) (data : List Nat) (idx : Nat) (acc : List Record),
      data.length ≠ 52 → data.length ≠ 68 → data.length ≠ 6 → 4 ≤ data.length →
      MT.parseDataChunk id data idx acc = acc ++
        [Record.fallback idx id (leVal (data.take 4))] ∧
      PC.parseDataChunk id data idx acc = MT.parseDataChunk id data idx acc) ∧
    (∀ (id : Nat) (data : List Nat) (idx : Nat) (acc : List Record), data.length < 4 →
      MT.parseDataChunk id data idx acc = acc ∧ PC.parseDataChunk id data idx acc = acc) := by
  refine ⟨?_, ?_, ?_, ?_, ?_⟩
  · intro id data idx acc h
    constructor
    · simp [MT.parseDataChunk, parseIMU6, h, u32at, f32at]
    · simp [MT.parseDataChunk, PC.parseDataChunk, h]
  · intro id data idx acc h
    constructor
    · simp [MT.parseDataChunk, parseECG, h, u32at, f32at]
    · simp [MT.parseDataChunk, PC.parseDataChunk, h]
  · intro id data idx acc h
    constructor
    · simp [MT.parseDataChunk, parseHR, h, f32at, u16at]
    · simp [PC.parseDataChunk, h, u32at]
  · intro id data idx acc h52 h68 h6 h4
    constructor
    · simp [MT.parseDataChunk, h52, h68, h6, Nat.not_lt.2 h4, u32at]
    · simp [MT.parseDataChunk, PC.parseDataChunk, h52, h68, h6, Nat.not_lt.2 h4]
  · intro id data idx acc h
    have h52 : data.length ≠ 52 := by omega
    have h68 : data.length ≠ 68 := by omega
    have h6 : data.length ≠ 6 := by omega
    constructor
    · simp [MT.parseDataChunk, h52, h68, h6, h]
    · simp [PC.parseDataChunk, h52, h68, h]

/-- Counterexample to C1 as stated: in the pc-extractor-parser decoder a
6-byte payload produces a Fallback record, not a HeartRate record. -/
theorem parseDataChunk_six_byte_fallback_pc :
    PC.parseDataChunk 5 [0, 0, 0, 0, 0, 0] 0 [] = [Record.fallback 0 5 0] ∧
    (PC.parseDataChunk 5 [0, 0, 0, 0, 0, 0] 0 []).all (fun r => !(isHR r)) = true := by
  constructor <;> decide

/-- Witness for C1 at concrete inputs: a 6-byte payload and a too-short
3-byte payload. -/
theorem parseDataChunk_length_dispatch_witness :
    (([1, 0, 0, 0, 2, 1] : List Nat).length = 6 ∧
      MT.parseDataChunk 9 [1, 0, 0, 0, 2, 1] 3 [] = [Record.hr 3 1 258] ∧
      PC.parseDataChunk 9 [1, 0, 0, 0, 2, 1] 3 [] = [Record.fallback 3 9 1]) ∧
    (([1, 2, 3] : List Nat).length < 4 ∧
      MT.parseDataChunk 9 [1, 2, 3] 0 [] = [] ∧ PC.parseDataChunk 9 [1, 2, 3] 0 [] = []) :=
  ⟨⟨by decide, (parseDataChunk_length_dispatch.2.2.1 9 [1, 0, 0, 0, 2, 1] 3 [] (by decide)).1,
    (parseDataChunk_length_dispatch.2.2.1 9 [1, 0, 0, 0, 2, 1] 3 [] (by decide)).2⟩,
   ⟨by decide, (parseDataChunk_length_dispatch.2.2.2.2 9 [1, 2, 3] 0 [] (by decide)).1,
    (parseDataChunk_length_dispatch.2.2.2.2 9 [1, 2, 3] 0 [] (by decide)).2⟩⟩

/-- C3: when a declared chunk length exceeds the remaining bytes, the
decoder stops consuming further chunks of that file without crashing
(`processSBEM` is total and simply returns), and the result preserves
exactly the chunks already decoded before the mismatch: appending a
truncated chunk to any well-formed file changes nothing in its decoded
state.  Decoding of other files is unaffected: batch processing decodes
each file independently. -/
theorem processSBEM_truncated_chunk_preserves_prefix :
    (∀ (hdr : List Nat) (cs : List (Nat × List Nat)) (id len : Nat) (tail : List Nat),
      hdr.length = 8 → ChunksValid cs → id < 65536 → len < 4294967296 → tail.length < len →
      processFile PC.parseDataChunk
          (hdr ++ (encodeChunks cs ++ (encodeId id ++ (encodeLen len ++ tail)))) =
        processFile PC.parseDataChunk (hdr ++ encodeChunks cs)) ∧
    (∀ (fs1 : List (List Nat)) (f : List Nat) (fs2 : List (List Nat)),
      PC.processAll (fs1 ++ f :: fs2) =
        PC.processAll fs1 ++ PC.processSBEM f :: PC.processAll fs2) := by
  constructor
  · intro hdr cs id len tail h8 hv hid hlen htail
    unfold processFile
    rw [List.drop_left' h8, List.drop_left' h8]
    rw [parseChunksFrom_encodeChunks PC.parseDataChunk cs
      (encodeId id ++ (encodeLen len ++ tail)) initDecodeState _ hv (by simp)]
    have hbad : parseChunksFrom PC.parseDataChunk (encodeId id ++ (encodeLen len ++ tail)).length
        (encodeId id ++ (encodeLen len ++ tail)) (stepChunks PC.parseDataChunk initDecodeState cs) =
        stepChunks PC.parseDataChunk initDecodeState cs :=
      parseChunksFrom_trunc (readId_encodeId hid _) (readLen_encodeLen hlen tail)
        (by simpa using Nat.not_le.2 htail)
    rw [hbad]
    have hnil : encodeChunks cs = encodeChunks cs ++ ([] : List Nat) := by simp
    rw [hnil, parseChunksFrom_encodeChunks PC.parseDataChunk cs [] initDecodeState _ hv (by simp)]
    rfl
  · intro fs1 f fs2
    simp [PC.processAll]

/-- Witness for C3: a file holding one complete fallback chunk followed by a
chunk declaring 10 payload bytes with only 1 remaining decodes exactly as
the file without the truncated chunk, and batch processing splits as a map. -/
theorem processSBEM_truncated_chunk_preserves_prefix_witness :
    (([0, 0, 0, 0, 0, 0, 0, 0] : List Nat).length = 8 ∧
      ChunksValid [(5, [1, 2, 3, 4])] ∧ 2 < 65536 ∧ 10 < 4294967296 ∧
      ([9] : List Nat).length < 10 ∧
      processFile PC.parseDataChunk
          ([0, 0, 0, 0, 0, 0, 0, 0] ++
            (encodeChunks [(5, [1, 2, 3, 4])] ++ (encodeId 2 ++ (encodeLen 10 ++ [9])))) =
        processFile PC.parseDataChunk ([0, 0, 0, 0, 0, 0, 0, 0] ++ encodeChunks [(5, [1, 2, 3, 4])])) ∧
    PC.processAll ([[]] ++ [0, 1] :: [[2]]) =
      PC.processAll [[]] ++ PC.processSBEM [0, 1] :: PC.processAll [[2]] :=
  ⟨⟨by decide, by decide, by decide, by decide, by decide,
    processSBEM_truncated_chunk_preserves_prefix.1 [0, 0, 0, 0, 0, 0, 0, 0] [(5, [1, 2, 3, 4])]
      2 10 [9] (by decide) (by decide) (by decide) (by decide) (by decide)⟩,
   processSBEM_truncated_chunk_preserves_prefix.2 [[]] [0, 1] [[2]]⟩

/-- C8: a chunk with id 0 is never run through the length-based dispatch:
for every payload the descriptor path leaves `data_chunks` untouched and
appends the group definitions obtained by text-decoding the payload as
UTF-8 with replacement-character substitution (a total function, so
descriptor decoding never fails the file) and tokenizing each line that
begins with the group marker into comma-separated integers, ignoring
non-digit characters within a token and skipping empty tokens; in
particular the descriptor text "<GRP>10,26" yields the token list
[10, 26]. -/
theorem descriptor_chunk_spec :
    (∀ (payload : List Nat) (st : DecodeState),
      stepChunk PC.parseDataChunk 0 payload st =
        { st with
            groupDefs := st.groupDefs ++
              ((pySplitlines (utf8DecodeReplace payload)).filter
                (fun l => grpMarker.isPrefixOf l)).map parseGroupLine,
            chunkIndex := st.chunkIndex + 1 }) ∧
    (∀ (payload : List Nat) (st : DecodeState),
      (stepChunk PC.parseDataChunk 0 payload st).dataChunks = st.dataChunks) ∧
    (parseGroupLine "<GRP>10,26".toList).tokens = [10, 26] := by
  refine ⟨fun payload st => rfl, fun payload st => rfl, ?_⟩
  decide

/-- Counterexample to C9 as stated: the value `fetch_log` returns to the
drain loop after a transport fault is the very value returned after the
10-unit notification timeout — both are `False`, so the two outcomes are
not distinguishable by the returned value. -/
theorem session_fault_timeout_counterexample :
    (runSession [] SessionEnd.fault emptyBuffer).2 =
      (runSession [] SessionEnd.timeout emptyBuffer).2 ∧
    (runSession [] SessionEnd.fault emptyBuffer).2 = some false :=
  ⟨rfl, rfl⟩

/-- C9 (amended): in every session the value returned to the drain loop
after a transport fault equals the value returned after the 10-unit
notification timeout (both produce `False`); only a completed log (EOF
marker, `True`) is distinguishable in the return value. -/
theorem session_fault_eq_timeout_value :
    ∀ (items : List SessionItem) (b : Buffer),
      (runSession items SessionEnd.fault b).2 = (runSession items SessionEnd.timeout b).2 :=
  runSession_fault_eq_timeout

/-- Counterexample to C5 as stated: two overlapping fragments delivered in
the two orders, each followed by the EOF marker, reconstruct different
buffers (position 0 holds the byte of whichever fragment arrived last). -/
theorem runSession_perm_counterexample :
    [Frag.mk 0 [1], Frag.mk 0 [2]].Perm [Frag.mk 0 [2], Frag.mk 0 [1]] ∧
    (runSession ([Frag.mk 0 [1], Frag.mk 0 [2]].map SessionItem.frag ++
        [SessionItem.frag (Frag.mk 0 [])]) SessionEnd.timeout emptyBuffer).1 0 ≠
      (runSession ([Frag.mk 0 [2], Frag.mk 0 [1]].map SessionItem.frag ++
        [SessionItem.frag (Frag.mk 0 [])]) SessionEnd.timeout emptyBuffer).1 0 := by
  exact ⟨List.Perm.swap _ _ _, by decide⟩

/-- C5 (amended): delivering a finite set of non-empty, pairwise
range-disjoint (offset, payload) notification fragments in any permutation,
followed by an empty-payload EOF marker, yields a reconstructed byte buffer
(and outcome) identical to delivering them in the original order; each
fragment is written at its stated offset, so on disjoint ranges the final
buffer is permutation-invariant. -/
theorem runSession_perm_disjoint :
    ∀ (l1 l2 : List Frag) (e : SessionEnd) (b : Buffer), l1.Perm l2 →
      List.Pairwise FragDisjoint l1 → (∀ f ∈ l1, f.payload ≠ []) →
      runSession (l1.map SessionItem.frag ++ [SessionItem.frag (Frag.mk 0 [])]) e b =
        runSession (l2.map SessionItem.frag ++ [SessionItem.frag (Frag.mk 0 [])]) e b := by
  intro l1 l2 e b hperm hpw hne
  have hne2 : ∀ f ∈ l2, f.payload ≠ [] := fun f hf => hne f (hperm.mem_iff.2 hf)
  rw [runSession_frags e l1 b hne, runSession_frags e l2 b hne2]
  have hbuf : writeFrags l1 b = writeFrags l2 b :=
    funext fun p => writeFrags_perm hperm hpw b p
  rw [hbuf]

/-- Witness for C5 at two disjoint fragments delivered in both orders. -/
theorem runSession_perm_disjoint_witness :
    ([Frag.mk 0 [1], Frag.mk 1 [2]].Perm [Frag.mk 1 [2], Frag.mk 0 [1]] ∧
     List.Pairwise FragDisjoint [Frag.mk 0 [1], Frag.mk 1 [2]] ∧
     (∀ f ∈ [Frag.mk 0 [1], Frag.mk 1 [2]], f.payload ≠ [])) ∧
    runSession ([Frag.mk 0 [1], Frag.mk 1 [2]].map SessionItem.frag ++
        [SessionItem.frag (Frag.mk 0 [])]) SessionEnd.timeout emptyBuffer =
      runSession ([Frag.mk 1 [2], Frag.mk 0 [1]].map SessionItem.frag ++
        [SessionItem.frag (Frag.mk 0 [])]) SessionEnd.timeout emptyBuffer := by
  refine ⟨⟨List.Perm.swap _ _ _, by decide, by decide⟩, ?_⟩
  exact runSession_perm_disjoint [Frag.mk 0 [1], Frag.mk 1 [2]] [Frag.mk 1 [2], Frag.mk 0 [1]]
    SessionEnd.timeout emptyBuffer (List.Perm.swap _ _ _) (by decide) (by decide)

/-- C7: the per-device drain loop starts at log id 1 and increments the log
id after every attempt (the attempted ids always form a consecutive range
from 1); with `max_consecutive_misses = 1`, a session that times out on log
id 1 ends the drain loop after exactly one fetch attempt; with threshold 2,
a miss followed by a success resets the consecutive-miss counter to 0 and
the loop continues (concretely, miss-success-miss-miss attempts logs
1,2,3,4). -/
theorem drain_loop_spec :
    (∀ (threshold : Nat) (outs : List Bool),
      drainAttempts threshold outs = List.range' 1 (drainAttempts threshold outs).length) ∧
    (∀ rest : List Bool, drainAttempts 1 (false :: rest) = [1]) ∧
    (∀ rest : List Bool,
      drainAttempts 2 (false :: true :: rest) = 1 :: 2 :: drainLoop 2 rest 3 0) ∧
    drainAttempts 2 [false, true, false, false] = [1, 2, 3, 4] := by
  refine ⟨fun θ outs => drainLoop_range θ outs 1 0, ?_, ?_, by decide⟩
  · intro rest
    show drainLoop 1 (false :: rest) 1 0 = [1]
    simp only [drainLoop, if_pos (by decide : (0 : Nat) < 1)]
    rw [show ((if false then 0 else 0 + 1) : Nat) = 1 from rfl]
    rw [drainLoop_stop (le_refl 1) rest 2]
  · intro rest
    show drainLoop 2 (false :: true :: rest) 1 0 = 1 :: 2 :: drainLoop 2 rest 3 0
    simp [drainLoop]

/-- C4: evaluation of the FETCH_LOG command builder.  For every log id
below 256 the command is exactly 6 bytes — opcode 3, client reference 101,
then bytes 2-5 equal to the little-endian u32 encoding of the id.  For log id
256 (and any id above 255) `bytearray([3, 101, log_id, 0, 0, 0])` fails
with a byte-out-of-range error instead of emitting the little-endian u32
encoding promised by the module docstrings. -/
theorem mkFetchCommand_spec :
    mkFetchCommand 256 = none ∧
    (∀ v : Nat, v < 256 → mkFetchCommand v = some [3, 101, v, 0, 0, 0] ∧
      ([3, 101, v, 0, 0, 0] : List Nat).length = 6 ∧
      List.drop 2 [3, 101, v, 0, 0, 0] = leBytes4 v) := by
  refine ⟨rfl, ?_⟩
  intro v hv
  refine ⟨by simp [mkFetchCommand, hv], rfl, ?_⟩
  have e1 : v % 256 = v := Nat.mod_eq_of_lt hv
  have e2 : v / 256 = 0 := Nat.div_eq_of_lt (by omega)
  have e3 : v / 65536 = 0 := Nat.div_eq_of_lt (by omega)
  have e4 : v / 16777216 = 0 := Nat.div_eq_of_lt (by omega)
  simp [leBytes4, e1, e2, e3, e4]

/-- Witness for C4 at log id 1: the emitted command is
`[3, 101, 1, 0, 0, 0]` and bytes 2-5 are the little-endian u32 of 1. -/
theorem mkFetchCommand_spec_witness :
    1 < 256 ∧ mkFetchCommand 1 = some [3, 101, 1, 0, 0, 0] ∧
    List.drop 2 [3, 101, 1, 0, 0, 0] = leBytes4 1 :=
  ⟨by decide, (mkFetchCommand_spec.2 1 (by decide)).1, (mkFetchCommand_spec.2 1 (by decide)).2.2⟩

/-- C6: in every reachable state of the scheduler, with any number of
devices and workers, no two workers simultaneously hold the same device: a
device index is added to the busy set under the selection lock before a
worker processes it and removed only when that worker finishes with it, so
the step relation never assigns a busy device to a second worker. -/
theorem scheduler_mutual_exclusion (d : Nat → Bool) (s : SchedState)
    (h : SchedReachable d s) :
    ∀ w1 w2 i, s.holds w1 = some i → s.holds w2 = some i → w1 = w2 :=
  fun w1 w2 i h1 h2 => (schedInv_reachable h).2 w1 w2 i h1 h2

/-- Witness for C6 at the reachable state in which worker 0 holds
device 0. -/
theorem scheduler_mutual_exclusion_witness :
    SchedReachable (fun _ => true) schedDemo ∧
    schedDemo.holds 0 = some 0 ∧ (0 : Nat) = 0 := by
  have hreach : SchedReachable (fun _ => true) schedDemo :=
    Relation.ReflTransGen.single
      (SchedStep.select (initSched fun _ => true) 0 0 rfl rfl rfl rfl)
  have hh : schedDemo.holds 0 = some 0 := by simp [schedDemo]
  exact ⟨hreach, hh, scheduler_mutual_exclusion (fun _ => true) schedDemo hreach 0 0 0 hh hh⟩
